import Mathlib

/-!
# Verification of the remote boltdb protocol (ethdb/remote/bolt_remote.go)

A shallow embedding of the remote read-only key-value database protocol:
the server session dispatch loop (`Server`), the application-level command
execution (`execCmd`), the client transaction wrapper (`DB.View`,
`Tx.Bucket`), and the interrupt check of the connection acceptor
(`Listener`).

Byte strings are modelled as `List Nat`; the CBOR stream as lists of typed
tokens; the Go maps as association lists (insert = cons, delete = filter,
lookup = first match, matching Go map overwrite semantics); the external
bolt database as an immutable collection of named buckets, each a list of
key/value pairs in ascending key order.
-/

namespace BoltRemote

/-- Byte strings (Go `[]byte` contents). -/
abbrev Bytes := List Nat

/-- Contents of a bolt bucket: key/value pairs in ascending key order. -/
abbrev BucketData := List (Bytes × Bytes)

/-- Lookup in an association list keyed by `Nat` (Go map read, first match wins). -/
def hLookup {α : Type} (m : List (Nat × α)) (k : Nat) : Option α :=
  match m with
  | [] => none
  | (k', v) :: rest => if k' = k then some v else hLookup rest k

/-- Go map assignment `m[k] = v`: the new binding shadows any older one. -/
def hInsert {α : Type} (m : List (Nat × α)) (k : Nat) (v : α) : List (Nat × α) :=
  (k, v) :: m

/-- Go `delete(m, k)`: remove every binding of key `k`. -/
def hDelete {α : Type} (m : List (Nat × α)) (k : Nat) : List (Nat × α) :=
  m.filter (fun p => p.1 != k)

/-- Lookup in an association list keyed by byte strings (bucket names, keys). -/
def bLookup {α : Type} (m : List (Bytes × α)) (k : Bytes) : Option α :=
  match m with
  | [] => none
  | (k', v) :: rest => if k' = k then some v else bLookup rest k

/-- Lexicographic strict order on byte strings, as `bytes.Compare _ _ < 0`. -/
def bytesLt : Bytes → Bytes → Bool
  | [], [] => false
  | [], _ :: _ => true
  | _ :: _, [] => false
  | a :: as, b :: bs => if a < b then true else if b < a then false else bytesLt as bs

/-- The external bolt database (read-only view): named buckets plus the
outcome of `db.Begin(false)` (`none` = begin succeeds with a snapshot of
`buckets`, `some e` = begin fails with error `e`). -/
structure BoltDB where
  buckets : List (Bytes × BucketData)
  beginErr : Option String
deriving DecidableEq

/-- A read-only bolt transaction: the snapshot taken at `Begin`. -/
abbrev BoltTx := List (Bytes × BucketData)

/-- A bolt cursor over one bucket: the full ordered contents and the pairs
at and after the current position that `Next` has not yet returned. -/
structure Cursor where
  full : BucketData
  remaining : BucketData
deriving DecidableEq

/-- `bolt.Cursor.Next`: return the pair at the next position and advance;
`(none, none)` once the bucket is exhausted. -/
def cursorNext (cur : Cursor) : (Option Bytes × Option Bytes) × Cursor :=
  match cur.remaining with
  | [] => ((none, none), cur)
  | (k, v) :: rest => ((some k, some v), { cur with remaining := rest })

/-- `bolt.Cursor.Seek`: position at the smallest key `≥ seekKey` and return
that pair, or `(none, none)` when no such key exists. -/
def cursorSeek (cur : Cursor) (seekKey : Bytes) : (Option Bytes × Option Bytes) × Cursor :=
  match (cur.full.dropWhile (fun p => bytesLt p.1 seekKey)) with
  | [] => ((none, none), { cur with remaining := [] })
  | (k, v) :: rest => ((some k, some v), { cur with remaining := rest })

/-- One encoded value on the response stream. -/
inductive WireValue where
  | uint (n : Nat)
  | str (s : String)
  | bytes (b : Option Bytes)
deriving DecidableEq

/-- The wire type of an encoded value. -/
inductive WireType where
  | wtUint
  | wtStr
  | wtBytes
deriving DecidableEq

/-- Type tag of an encoded value, for stating wire-shape properties. -/
def WireValue.wtype : WireValue → WireType
  | .uint _ => .wtUint
  | .str _ => .wtStr
  | .bytes _ => .wtBytes

/-- A fully decoded command with its arguments. -/
inductive Cmd where
  | version
  | lastError
  | beginTx
  | endTx (txHandle : Nat)
  | bucket (txHandle : Nat) (name : Bytes)
  | get (bucketHandle : Nat) (key : Bytes)
  | cursor (bucketHandle : Nat)
  | seek (cursorHandle : Nat) (seekKey : Bytes)
  | next (cursorHandle : Nat) (numberOfKeys : Nat)
deriving DecidableEq

/-- The current version of the remote db protocol. -/
def Version : Nat := 1

/-- Per-session server state: the local variables of `Server`. -/
structure ServerState where
  lastError : Option String
  lastHandle : Nat
  transactions : List (Nat × BoltTx)
  buckets : List (Nat × BucketData)
  bucketsByTx : List (Nat × List Nat)
  cursors : List (Nat × Cursor)
  cursorsByBucket : List (Nat × List Nat)
deriving DecidableEq

/-- The session state at the top of `Server`, before any command. -/
def initState : ServerState :=
  { lastError := none
    lastHandle := 0
    transactions := []
    buckets := []
    bucketsByTx := []
    cursors := []
    cursorsByBucket := [] }

/-- `fmt.Sprintf` of a Go `error` value: `nil` prints verbatim. -/
def errString : Option String → String
  | none => "<nil>"
  | some e => e

/-- Register a child handle under a parent in a reverse-ownership index
(the `append`-or-create step of `CmdBucket` and `CmdCursor`). -/
def addChild (m : List (Nat × List Nat)) (parent child : Nat) : List (Nat × List Nat) :=
  match hLookup m parent with
  | some hs => hInsert m parent (hs ++ [child])
  | none => hInsert m parent [child]

/-- The per-bucket step of the `CmdEndTx` cascade: delete every cursor the
bucket owns, drop its reverse index entry, then delete the bucket itself. -/
def dropBucket (s : ServerState) (bh : Nat) : ServerState :=
  let s1 :=
    match hLookup s.cursorsByBucket bh with
    | some chs =>
        { s with cursors := chs.foldl (fun m ch => hDelete m ch) s.cursors
                 cursorsByBucket := hDelete s.cursorsByBucket bh }
    | none => s
  { s1 with buckets := hDelete s1.buckets bh }

/-- The emit loop of `CmdNext`: emit the next pair, decrement the count,
and stop (after emitting) as soon as a `nil` key appears. -/
def nextLoop (cur : Cursor) : Nat → Cursor × List WireValue
  | 0 => (cur, [])
  | n + 1 =>
    let ((k, v), cur') := cursorNext cur
    match k with
    | none => (cur', [WireValue.bytes none, WireValue.bytes v])
    | some kb =>
        let (cur'', out) := nextLoop cur' n
        (cur'', WireValue.bytes (some kb) :: WireValue.bytes v :: out)

/-- Execute one decoded command against the session state, returning the
new state and the encoded response values, exactly as the dispatch switch
of `Server` does. -/
def execCmd (db : BoltDB) (s : ServerState) (c : Cmd) : ServerState × List WireValue :=
  match c with
  | .version => (s, [WireValue.uint Version])
  | .lastError => (s, [WireValue.str (errString s.lastError)])
  | .beginTx =>
      match db.beginErr with
      | some e => ({ s with lastError := some e }, [WireValue.uint 0])
      | none =>
          let h := s.lastHandle + 1
          ({ s with lastError := none
                    lastHandle := h
                    transactions := hInsert s.transactions h db.buckets },
           [WireValue.uint h])
  | .endTx th =>
      match hLookup s.transactions th with
      | some _ =>
          let bhs := (hLookup s.bucketsByTx th).getD []
          let s1 := bhs.foldl dropBucket s
          let s2 := { s1 with bucketsByTx := hDelete s1.bucketsByTx th }
          ({ s2 with transactions := hDelete s2.transactions th, lastError := none }, [])
      | none => ({ s with lastError := some "transaction not found" }, [])
  | .bucket th name =>
      match hLookup s.transactions th with
      | some tx =>
          match bLookup tx name with
          | none => ({ s with lastError := some "bucket not found" }, [WireValue.uint 0])
          | some bdata =>
              let h := s.lastHandle + 1
              ({ s with lastError := none
                        lastHandle := h
                        buckets := hInsert s.buckets h bdata
                        bucketsByTx := addChild s.bucketsByTx th h },
               [WireValue.uint h])
      | none => ({ s with lastError := some "transaction not found" }, [WireValue.uint 0])
  | .get bh key =>
      match hLookup s.buckets bh with
      | some bdata => ({ s with lastError := none }, [WireValue.bytes (bLookup bdata key)])
      | none => ({ s with lastError := some "bucket not found" }, [WireValue.bytes none])
  | .cursor bh =>
      match hLookup s.buckets bh with
      | some bdata =>
          let cur : Cursor := { full := bdata, remaining := bdata }
          let h := s.lastHandle + 1
          ({ s with lastError := none
                    lastHandle := h
                    cursors := hInsert s.cursors h cur
                    cursorsByBucket := addChild s.cursorsByBucket bh h },
           [WireValue.uint h])
      | none => ({ s with lastError := some "bucket not found" }, [WireValue.uint 0])
  | .seek ch skey =>
      match hLookup s.cursors ch with
      | some cur =>
          let ((k, v), cur') := cursorSeek cur skey
          ({ s with lastError := none, cursors := hInsert s.cursors ch cur' },
           [WireValue.bytes k, WireValue.bytes v])
      | none =>
          ({ s with lastError := some "cursor not found" },
           [WireValue.bytes none, WireValue.bytes none])
  | .next ch n =>
      match hLookup s.cursors ch with
      | some cur =>
          let (cur', out) := nextLoop cur n
          ({ s with lastError := none, cursors := hInsert s.cursors ch cur' }, out)
      | none => ({ s with lastError := some "cursor not found" }, [])

/-- Execute a sequence of decoded commands, threading the session state. -/
def execCmds (db : BoltDB) (s : ServerState) (cs : List Cmd) : ServerState :=
  cs.foldl (fun st c => (execCmd db st c).1) s

/-! ## The token level: the CBOR stream and the dispatch loop of `Server` -/

/-- One self-describing item on the request stream. -/
inductive Token where
  | tUint (n : Nat)
  | tBytes (b : Option Bytes)
  | tStr (s : String)
deriving DecidableEq

/-- Command tag constants (`CmdVersion` .. `CmdNext`). -/
def CmdVersionTag : Nat := 0

def CmdLastErrorTag : Nat := 1

def CmdBeginTxTag : Nat := 2

def CmdEndTxTag : Nat := 3

def CmdBucketTag : Nat := 4

def CmdGetTag : Nat := 5

def CmdCursorTag : Nat := 6

def CmdSeekTag : Nat := 7

def CmdNextTag : Nat := 8

/-- Decode one stream item into a `uint64` (used for handles and counts). -/
def decodeU : Token → Except String Nat
  | .tUint n => .ok n
  | _ => .error "decode uint64 failed"

/-- Decode one stream item into a `[]byte`; a CBOR nil decodes to the nil
slice, which compares like the empty byte string. -/
def decodeB : Token → Except String Bytes
  | .tBytes (some b) => .ok b
  | .tBytes none => .ok []
  | _ => .error "decode bytes failed"

/-- Decode one stream item into a `Command` (a `uint8`): any value that
does not fit a byte is a decode error. -/
def decodeC : Token → Except String Nat
  | .tUint n => if n < 256 then .ok n else .error "decode command failed: overflow"
  | _ => .error "decode command failed"

/-- Outcome of the dispatch loop of `Server`: a graceful end of input, or
a fatal error returned to the caller. -/
inductive ServeOutcome where
  | ok
  | err (e : String)
deriving DecidableEq

/-- The dispatch loop of `Server`: read one command tag, decode its
declared arguments, execute, append the encoded response, and repeat until
end of input. A decode error of the command tag or of an argument is fatal
and is returned - with the single exception of `CmdNext`'s `numberOfKeys`,
whose decode error is only logged, leaving the count at its zero value
(the model consumes the malformed item and continues). Encoding into the
output list never fails, so encode-error paths do not arise here. -/
def Server (db : BoltDB) : ServerState → List WireValue → List Token → ServeOutcome × ServerState × List WireValue
  | s, out, [] => (.ok, s, out)
  | s, out, t :: rest =>
    match decodeC t with
    | .error e => (.err e, s, out)
    | .ok cTag =>
      if cTag = CmdVersionTag then
        let (s', o) := execCmd db s Cmd.version
        Server db s' (out ++ o) rest
      else if cTag = CmdLastErrorTag then
        let (s', o) := execCmd db s Cmd.lastError
        Server db s' (out ++ o) rest
      else if cTag = CmdBeginTxTag then
        let (s', o) := execCmd db s Cmd.beginTx
        Server db s' (out ++ o) rest
      else if cTag = CmdEndTxTag then
        match rest with
        | [] => (.err "decode uint64 failed", s, out)
        | a :: rest1 =>
          match decodeU a with
          | .error e => (.err e, s, out)
          | .ok th =>
            let (s', o) := execCmd db s (Cmd.endTx th)
            Server db s' (out ++ o) rest1
      else if cTag = CmdBucketTag then
        match rest with
        | [] => (.err "decode uint64 failed", s, out)
        | a :: rest1 =>
          match decodeU a with
          | .error e => (.err e, s, out)
          | .ok th =>
            match rest1 with
            | [] => (.err "decode bytes failed", s, out)
            | b :: rest2 =>
              match decodeB b with
              | .error e => (.err e, s, out)
              | .ok name =>
                let (s', o) := execCmd db s (Cmd.bucket th name)
                Server db s' (out ++ o) rest2
      else if cTag = CmdGetTag then
        match rest with
        | [] => (.err "decode uint64 failed", s, out)
        | a :: rest1 =>
          match decodeU a with
          | .error e => (.err e, s, out)
          | .ok bh =>
            match rest1 with
            | [] => (.err "decode bytes failed", s, out)
            | b :: rest2 =>
              match decodeB b with
              | .error e => (.err e, s, out)
              | .ok key =>
                let (s', o) := execCmd db s (Cmd.get bh key)
                Server db s' (out ++ o) rest2
      else if cTag = CmdCursorTag then
        match rest with
        | [] => (.err "decode uint64 failed", s, out)
        | a :: rest1 =>
          match decodeU a with
          | .error e => (.err e, s, out)
          | .ok bh =>
            let (s', o) := execCmd db s (Cmd.cursor bh)
            Server db s' (out ++ o) rest1
      else if cTag = CmdSeekTag then
        match rest with
        | [] => (.err "decode uint64 failed", s, out)
        | a :: rest1 =>
          match decodeU a with
          | .error e => (.err e, s, out)
          | .ok ch =>
            match rest1 with
            | [] => (.err "decode bytes failed", s, out)
            | b :: rest2 =>
              match decodeB b with
              | .error e => (.err e, s, out)
              | .ok skey =>
                let (s', o) := execCmd db s (Cmd.seek ch skey)
                Server db s' (out ++ o) rest2
      else if cTag = CmdNextTag then
        match rest with
        | [] => (.err "decode uint64 failed", s, out)
        | a :: rest1 =>
          match decodeU a with
          | .error e => (.err e, s, out)
          | .ok ch =>
            match rest1 with
            | [] =>
              -- decode of numberOfKeys fails at end of input, is only
              -- logged, and the loop continues with the zero value
              let (s', o) := execCmd db s (Cmd.next ch 0)
              Server db s' (out ++ o) []
            | b :: rest2 =>
              match decodeU b with
              | .error _ =>
                -- decode error of numberOfKeys is only logged; the count
                -- keeps its zero value and the loop continues
                let (s', o) := execCmd db s (Cmd.next ch 0)
                Server db s' (out ++ o) rest2
              | .ok n =>
                let (s', o) := execCmd db s (Cmd.next ch n)
                Server db s' (out ++ o) rest2
      else
        (.err "unknown command", s, out)

/-! ## The connection acceptor (`Listener`) -/

/-- Loop control observed by the `for` statement of `Listener` after one
iteration of its body. -/
inductive LoopCtl where
  | continueLoop
  | exitLoop
deriving DecidableEq

/-- The interrupt check at the end of each accept-loop iteration of
`Listener`. When a value is pending on the interrupt channel, the `select`
arm logs and executes `break`; per Go semantics that `break` terminates
the enclosing `select` statement, not the `for` loop, so the loop
continues in both branches and the `ln.Close()` after the loop is never
reached. -/
def listenerInterruptCheck (interruptPending : Bool) : LoopCtl :=
  if interruptPending then
    LoopCtl.continueLoop
  else
    LoopCtl.continueLoop

/-! ## The client (`DB`, `Tx`, `Bucket`) -/

/-- The client-side `Tx`, wrapping the transaction handle. -/
structure Tx where
  txHandle : Nat
deriving DecidableEq

/-- The client-side `Bucket`, wrapping the bucket handle. -/
structure Bucket where
  bucketHandle : Nat
deriving DecidableEq

/-- The client-side `DB`. Its reader and writer are modelled outside the
structure: commands written to the stream are returned as a token list,
and the values read back are passed in as parameters. -/
structure DB where
  deriving DecidableEq

/-- `DB.View`: send `CmdBeginTx` and read back `txHandleReply`; if it is
zero, send `CmdLastError`, read back `lastErrorReply` and return it as the
failure; otherwise run `f` on the wrapped handle, send `CmdEndTx` with the
handle unconditionally, and return `f`'s error. The first component is the
full token sequence written to the stream. -/
def DB.View (_db : DB) (txHandleReply : Nat) (lastErrorReply : String)
    (f : Tx → Option String) : List Token × Option String :=
  if txHandleReply = 0 then
    ([Token.tUint CmdBeginTxTag, Token.tUint CmdLastErrorTag], some lastErrorReply)
  else
    let opErr := f { txHandle := txHandleReply }
    ([Token.tUint CmdBeginTxTag, Token.tUint CmdEndTxTag, Token.tUint txHandleReply], opErr)

/-- `Tx.Bucket`: the client-side bucket accessor. The second component is
the token sequence written to the stream (none). -/
def Tx.Bucket (_tx : Tx) (_name : Bytes) : Option Bucket × List Token :=
  (none, [])

/-! ## Handle-allocation bookkeeping -/

/-- The handle a single command reports to the client through a successful
allocation reply (a nonzero `uint64` from `CmdBeginTx`, `CmdBucket` or
`CmdCursor`). -/
def allocStep (db : BoltDB) (s : ServerState) (c : Cmd) : List Nat :=
  match c with
  | .beginTx | .bucket _ _ | .cursor _ =>
    match (execCmd db s c).2 with
    | [WireValue.uint h] => if h = 0 then [] else [h]
    | _ => []
  | _ => []

/-- All handles reported to the client by successful allocations over a
command sequence, in stream order. -/
def successHandles (db : BoltDB) : ServerState → List Cmd → List Nat
  | _, [] => []
  | s, c :: cs => allocStep db s c ++ successHandles db (execCmd db s c).1 cs

/-! ## Concrete instances used to exhibit behaviours -/

/-- A concrete store: one bucket named `[98]` holding the pair `[97] ↦ [49]`;
`Begin` succeeds. -/
def db0 : BoltDB := { buckets := [([98], [([97], [49])])], beginErr := none }

/-- A concrete exhausted cursor. -/
def c0 : Cursor := { full := [], remaining := [] }

/-- A concrete session state owning one cursor, registered at handle 1;
handle 2 is unused. -/
def s0 : ServerState :=
  { lastError := none
    lastHandle := 1
    transactions := []
    buckets := []
    bucketsByTx := []
    cursors := [(1, c0)]
    cursorsByBucket := [] }

/-- The session state after `BeginTx` (handle 1), `Bucket` (handle 2) and
`Cursor` (handle 3) on `db0`. -/
def s3 : ServerState := execCmds db0 initState [Cmd.beginTx, Cmd.bucket 1 [98], Cmd.cursor 2]

/-! ## Association-list lemmas -/

theorem hLookup_cons {α : Type} (k' : Nat) (v : α) (m : List (Nat × α)) (k : Nat) :
    hLookup ((k', v) :: m) k = if k' = k then some v else hLookup m k := rfl

theorem hDelete_cons {α : Type} (k' : Nat) (v : α) (m : List (Nat × α)) (k : Nat) :
    hDelete ((k', v) :: m) k = if k' = k then hDelete m k else (k', v) :: hDelete m k := by
  simp only [hDelete, List.filter_cons]
  by_cases h : k' = k <;> simp [h]

theorem hLookup_hDelete {α : Type} (m : List (Nat × α)) (kd k : Nat) :
    hLookup (hDelete m kd) k = if kd = k then none else hLookup m k := by
  induction m with
  | nil => by_cases h : kd = k <;> simp [hDelete, hLookup, h]
  | cons p rest ih =>
    obtain ⟨k', v⟩ := p
    rw [hDelete_cons]
    by_cases h1 : k' = kd
    · subst h1
      rw [if_pos rfl, ih]
      by_cases h2 : k' = k
      · subst h2; simp [hLookup_cons]
      · simp [hLookup_cons, h2]
    · rw [if_neg h1, hLookup_cons, hLookup_cons, ih]
      by_cases h2 : k' = k
      · subst h2
        have : ¬ kd = k' := fun h => h1 h.symm
        simp [this]
      · simp [h2]

theorem hLookup_foldl_hDelete_none {α : Type} (l : List Nat) (m : List (Nat × α)) (c : Nat)
    (h : hLookup m c = none) :
    hLookup (l.foldl (fun m k => hDelete m k) m) c = none := by
  induction l generalizing m with
  | nil => exact h
  | cons a l ih =>
    refine ih _ ?_
    rw [hLookup_hDelete]
    by_cases hac : a = c <;> simp [hac, h]

theorem hLookup_foldl_hDelete_mem {α : Type} (l : List Nat) (m : List (Nat × α)) (c : Nat)
    (h : c ∈ l) :
    hLookup (l.foldl (fun m k => hDelete m k) m) c = none := by
  induction l generalizing m with
  | nil => cases h
  | cons a l ih =>
    rcases List.mem_cons.mp h with h1 | h1
    · subst h1
      exact hLookup_foldl_hDelete_none l _ _ (by rw [hLookup_hDelete]; simp)
    · exact ih _ h1

/-! ## `dropBucket` lemmas -/

theorem dropBucket_lastHandle (s : ServerState) (bh : Nat) :
    (dropBucket s bh).lastHandle = s.lastHandle := by
  unfold dropBucket
  cases hLookup s.cursorsByBucket bh <;> rfl

theorem dropBucket_lastError (s : ServerState) (bh : Nat) :
    (dropBucket s bh).lastError = s.lastError := by
  unfold dropBucket
  cases hLookup s.cursorsByBucket bh <;> rfl

theorem dropBucket_transactions (s : ServerState) (bh : Nat) :
    (dropBucket s bh).transactions = s.transactions := by
  unfold dropBucket
  cases hLookup s.cursorsByBucket bh <;> rfl

theorem dropBucket_buckets (s : ServerState) (bh : Nat) :
    (dropBucket s bh).buckets = hDelete s.buckets bh := by
  unfold dropBucket
  cases hLookup s.cursorsByBucket bh <;> rfl

theorem dropBucket_cursors_none (s : ServerState) (bh x : Nat)
    (h : hLookup s.cursors x = none) :
    hLookup (dropBucket s bh).cursors x = none := by
  unfold dropBucket
  cases hh : hLookup s.cursorsByBucket bh
  · simpa using h
  · simpa using hLookup_foldl_hDelete_none _ _ _ h

theorem dropBucket_cursors_mem (s : ServerState) (bh c : Nat)
    (h : c ∈ (hLookup s.cursorsByBucket bh).getD []) :
    hLookup (dropBucket s bh).cursors c = none := by
  unfold dropBucket
  cases hh : hLookup s.cursorsByBucket bh with
  | none => rw [hh] at h; cases h
  | some chs =>
    rw [hh] at h
    simpa using hLookup_foldl_hDelete_mem chs _ c (by simpa using h)

theorem dropBucket_cursorsByBucket_ne (s : ServerState) (bh b : Nat) (h : bh ≠ b) :
    hLookup (dropBucket s bh).cursorsByBucket b = hLookup s.cursorsByBucket b := by
  unfold dropBucket
  cases hh : hLookup s.cursorsByBucket bh
  · rfl
  · simpa using (by rw [hLookup_hDelete]; simp [h] :
      hLookup (hDelete s.cursorsByBucket bh) b = hLookup s.cursorsByBucket b)

/-! ## Fold-of-`dropBucket` lemmas -/

theorem foldl_dropBucket_lastHandle (bhs : List Nat) (s : ServerState) :
    (bhs.foldl dropBucket s).lastHandle = s.lastHandle := by
  induction bhs generalizing s with
  | nil => rfl
  | cons a l ih => rw [List.foldl_cons, ih, dropBucket_lastHandle]

theorem foldl_dropBucket_transactions (bhs : List Nat) (s : ServerState) :
    (bhs.foldl dropBucket s).transactions = s.transactions := by
  induction bhs generalizing s with
  | nil => rfl
  | cons a l ih => rw [List.foldl_cons, ih, dropBucket_transactions]

theorem foldl_dropBucket_buckets_none (bhs : List Nat) (s : ServerState) (x : Nat)
    (h : hLookup s.buckets x = none) :
    hLookup (bhs.foldl dropBucket s).buckets x = none := by
  induction bhs generalizing s with
  | nil => exact h
  | cons a l ih =>
    refine ih _ ?_
    rw [dropBucket_buckets, hLookup_hDelete]
    by_cases hax : a = x <;> simp [hax, h]

theorem foldl_dropBucket_cursors_none (bhs : List Nat) (s : ServerState) (x : Nat)
    (h : hLookup s.cursors x = none) :
    hLookup (bhs.foldl dropBucket s).cursors x = none := by
  induction bhs generalizing s with
  | nil => exact h
  | cons a l ih => exact ih _ (dropBucket_cursors_none s a x h)

theorem foldl_dropBucket_removes (bhs : List Nat) (s : ServerState) (b c : Nat)
    (hb : b ∈ bhs) (hc : c ∈ (hLookup s.cursorsByBucket b).getD []) :
    hLookup (bhs.foldl dropBucket s).buckets b = none ∧
    hLookup (bhs.foldl dropBucket s).cursors c = none := by
  induction bhs generalizing s with
  | nil => cases hb
  | cons a l ih =>
    rw [List.foldl_cons]
    by_cases hab : a = b
    · subst hab
      have h1 : hLookup (dropBucket s a).buckets a = none := by
        rw [dropBucket_buckets, hLookup_hDelete]; simp
      have h2 : hLookup (dropBucket s a).cursors c = none :=
        dropBucket_cursors_mem s a c hc
      exact ⟨foldl_dropBucket_buckets_none l _ a h1,
             foldl_dropBucket_cursors_none l _ c h2⟩
    · have hb' : b ∈ l := by
        rcases List.mem_cons.mp hb with h | h
        · exact absurd h.symm hab
        · exact h
      have hc' : c ∈ (hLookup (dropBucket s a).cursorsByBucket b).getD [] := by
        rw [dropBucket_cursorsByBucket_ne s a b hab]; exact hc
      exact ih _ hb' hc'

/-! ## Once a bucket or cursor handle is dead, it stays dead -/

theorem execCmd_dead (db : BoltDB) (s : ServerState) (c : Cmd) (b cu : Nat)
    (hb1 : b ≤ s.lastHandle) (hb2 : hLookup s.buckets b = none)
    (hc1 : cu ≤ s.lastHandle) (hc2 : hLookup s.cursors cu = none) :
    b ≤ (execCmd db s c).1.lastHandle ∧ hLookup (execCmd db s c).1.buckets b = none ∧
    cu ≤ (execCmd db s c).1.lastHandle ∧ hLookup (execCmd db s c).1.cursors cu = none := by
  cases c with
  | version => exact ⟨hb1, hb2, hc1, hc2⟩
  | lastError => exact ⟨hb1, hb2, hc1, hc2⟩
  | beginTx =>
    cases hdb : db.beginErr with
    | some e => simpa [execCmd, hdb] using ⟨hb1, hb2, hc1, hc2⟩
    | none =>
      simp only [execCmd, hdb]
      exact ⟨by omega, by simpa using hb2, by omega, by simpa using hc2⟩
  | endTx th =>
    cases ht : hLookup s.transactions th with
    | none => simpa [execCmd, ht] using ⟨hb1, hb2, hc1, hc2⟩
    | some tx =>
      simp only [execCmd, ht]
      refine ⟨?_, ?_, ?_, ?_⟩
      · simpa [foldl_dropBucket_lastHandle] using hb1
      · simpa using foldl_dropBucket_buckets_none _ s b hb2
      · simpa [foldl_dropBucket_lastHandle] using hc1
      · simpa using foldl_dropBucket_cursors_none _ s cu hc2
  | bucket th name =>
    cases ht : hLookup s.transactions th with
    | none => simpa [execCmd, ht] using ⟨hb1, hb2, hc1, hc2⟩
    | some tx =>
      cases hbk : bLookup tx name with
      | none => simpa [execCmd, ht, hbk] using ⟨hb1, hb2, hc1, hc2⟩
      | some bdata =>
        simp only [execCmd, ht, hbk]
        refine ⟨by omega, ?_, by omega, by simpa using hc2⟩
        simp only [hInsert, hLookup_cons]
        rw [if_neg (by omega)]
        simpa using hb2
  | get bh key =>
    cases h : hLookup s.buckets bh <;> simpa [execCmd, h] using ⟨hb1, hb2, hc1, hc2⟩
  | cursor bh =>
    cases h : hLookup s.buckets bh with
    | none => simpa [execCmd, h] using ⟨hb1, hb2, hc1, hc2⟩
    | some bdata =>
      simp only [execCmd, h]
      refine ⟨by omega, by simpa using hb2, by omega, ?_⟩
      simp only [hInsert, hLookup_cons]
      rw [if_neg (by omega)]
      simpa using hc2
  | seek ch skey =>
    cases h : hLookup s.cursors ch with
    | none => simpa [execCmd, h] using ⟨hb1, hb2, hc1, hc2⟩
    | some cur =>
      have hne : ch ≠ cu := by
        intro he
        rw [he, hc2] at h
        cases h
      simp only [execCmd, h]
      refine ⟨by simpa using hb1, by simpa using hb2, by simpa using hc1, ?_⟩
      simp only [hInsert, hLookup_cons]
      rw [if_neg hne]
      simpa using hc2
  | next ch n =>
    cases h : hLookup s.cursors ch with
    | none => simpa [execCmd, h] using ⟨hb1, hb2, hc1, hc2⟩
    | some cur =>
      have hne : ch ≠ cu := by
        intro he
        rw [he, hc2] at h
        cases h
      simp only [execCmd, h]
      refine ⟨by simpa using hb1, by simpa using hb2, by simpa using hc1, ?_⟩
      simp only [hInsert, hLookup_cons]
      rw [if_neg hne]
      simpa using hc2

theorem execCmds_dead (db : BoltDB) (cs : List Cmd) (s : ServerState) (b cu : Nat)
    (hb1 : b ≤ s.lastHandle) (hb2 : hLookup s.buckets b = none)
    (hc1 : cu ≤ s.lastHandle) (hc2 : hLookup s.cursors cu = none) :
    b ≤ (execCmds db s cs).lastHandle ∧ hLookup (execCmds db s cs).buckets b = none ∧
    cu ≤ (execCmds db s cs).lastHandle ∧ hLookup (execCmds db s cs).cursors cu = none := by
  induction cs generalizing s with
  | nil => exact ⟨hb1, hb2, hc1, hc2⟩
  | cons c cs ih =>
    obtain ⟨h1, h2, h3, h4⟩ := execCmd_dead db s c b cu hb1 hb2 hc1 hc2
    simpa [execCmds, List.foldl_cons] using ih (execCmd db s c).1 h1 h2 h3 h4

/-! ## Handle allocation: one shared counter, incremented on success only -/

theorem allocStep_spec (db : BoltDB) (s : ServerState) (c : Cmd) :
    (allocStep db s c = [] ∧ (execCmd db s c).1.lastHandle = s.lastHandle) ∨
    (allocStep db s c = [s.lastHandle + 1] ∧
      (execCmd db s c).1.lastHandle = s.lastHandle + 1) := by
  cases c with
  | version => exact Or.inl ⟨rfl, rfl⟩
  | lastError => exact Or.inl ⟨rfl, rfl⟩
  | beginTx =>
    cases hdb : db.beginErr with
    | some e => exact Or.inl ⟨by simp [allocStep, execCmd, hdb], by simp [execCmd, hdb]⟩
    | none => exact Or.inr ⟨by simp [allocStep, execCmd, hdb], by simp [execCmd, hdb]⟩
  | endTx th =>
    refine Or.inl ⟨rfl, ?_⟩
    cases ht : hLookup s.transactions th with
    | none => simp [execCmd, ht]
    | some tx => simp [execCmd, ht, foldl_dropBucket_lastHandle]
  | bucket th name =>
    cases ht : hLookup s.transactions th with
    | none => exact Or.inl ⟨by simp [allocStep, execCmd, ht], by simp [execCmd, ht]⟩
    | some tx =>
      cases hbk : bLookup tx name with
      | none =>
        exact Or.inl ⟨by simp [allocStep, execCmd, ht, hbk], by simp [execCmd, ht, hbk]⟩
      | some bdata =>
        exact Or.inr ⟨by simp [allocStep, execCmd, ht, hbk], by simp [execCmd, ht, hbk]⟩
  | get bh key =>
    refine Or.inl ⟨rfl, ?_⟩
    cases h : hLookup s.buckets bh <;> simp [execCmd, h]
  | cursor bh =>
    cases h : hLookup s.buckets bh with
    | none => exact Or.inl ⟨by simp [allocStep, execCmd, h], by simp [execCmd, h]⟩
    | some bdata => exact Or.inr ⟨by simp [allocStep, execCmd, h], by simp [execCmd, h]⟩
  | seek ch skey =>
    refine Or.inl ⟨rfl, ?_⟩
    cases h : hLookup s.cursors ch <;> simp [execCmd, h]
  | next ch n =>
    refine Or.inl ⟨rfl, ?_⟩
    cases h : hLookup s.cursors ch <;> simp [execCmd, h]

theorem successHandles_range (db : BoltDB) (cs : List Cmd) (s : ServerState) :
    successHandles db s cs =
      List.range' (s.lastHandle + 1) (successHandles db s cs).length := by
  induction cs generalizing s with
  | nil => rfl
  | cons c cs ih =>
    simp only [successHandles]
    rcases allocStep_spec db s c with ⟨h1, h2⟩ | ⟨h1, h2⟩
    · rw [h1, List.nil_append]
      have h3 := ih (execCmd db s c).1
      rw [h2] at h3
      exact h3
    · rw [h1]
      have h3 := ih (execCmd db s c).1
      rw [h2] at h3
      simp only [List.cons_append, List.nil_append, List.length_cons, List.range'_succ]
      conv_lhs => rw [h3]

/-! ## The `CmdNext` emit loop -/

/-- The response values for a list of real (non-nil) pairs. -/
def pairsOut (l : BucketData) : List WireValue :=
  match l with
  | [] => []
  | (k, v) :: rest => WireValue.bytes (some k) :: WireValue.bytes (some v) :: pairsOut rest

theorem pairsOut_length (l : BucketData) : (pairsOut l).length = 2 * l.length := by
  induction l with
  | nil => rfl
  | cons p rest ih => obtain ⟨k, v⟩ := p; simp [pairsOut, ih]; omega

theorem pairsOut_count_nil (l : BucketData) :
    List.count (WireValue.bytes none) (pairsOut l) = 0 := by
  induction l with
  | nil => rfl
  | cons p rest ih =>
    obtain ⟨k, v⟩ := p
    simp [pairsOut, List.count_cons, ih]

theorem nextLoop_le (cur : Cursor) (n : Nat) (h : n ≤ cur.remaining.length) :
    nextLoop cur n =
      ({ cur with remaining := cur.remaining.drop n }, pairsOut (cur.remaining.take n)) := by
  induction n generalizing cur with
  | zero => simp [nextLoop, pairsOut]
  | succ n ih =>
    obtain ⟨full, rem⟩ := cur
    cases rem with
    | nil => simp at h
    | cons p rest =>
      obtain ⟨k, v⟩ := p
      have h' : n ≤ rest.length := by simpa using h
      simp only [nextLoop, cursorNext]
      rw [ih { full := full, remaining := rest } h']
      simp [pairsOut]

theorem nextLoop_gt (cur : Cursor) (n : Nat) (h : cur.remaining.length < n) :
    nextLoop cur n =
      ({ cur with remaining := [] },
        pairsOut cur.remaining ++ [WireValue.bytes none, WireValue.bytes none]) := by
  induction n generalizing cur with
  | zero => exact absurd h (Nat.not_lt_zero _)
  | succ n ih =>
    obtain ⟨full, rem⟩ := cur
    cases rem with
    | nil => simp [nextLoop, cursorNext, pairsOut]
    | cons p rest =>
      obtain ⟨k, v⟩ := p
      have h' : rest.length < n := by simpa using h
      simp only [nextLoop, cursorNext]
      rw [ih { full := full, remaining := rest } h']
      simp [pairsOut]

/-! ## Outcomes of commands referencing dead handles -/

theorem execCmd_get_dead (db : BoltDB) (s : ServerState) (bh : Nat) (key : Bytes)
    (h : hLookup s.buckets bh = none) :
    (execCmd db s (Cmd.get bh key)).1.lastError = some "bucket not found" := by
  simp [execCmd, h]

theorem execCmd_cursor_dead (db : BoltDB) (s : ServerState) (bh : Nat)
    (h : hLookup s.buckets bh = none) :
    (execCmd db s (Cmd.cursor bh)).1.lastError = some "bucket not found" := by
  simp [execCmd, h]

theorem execCmd_seek_dead (db : BoltDB) (s : ServerState) (ch : Nat) (skey : Bytes)
    (h : hLookup s.cursors ch = none) :
    (execCmd db s (Cmd.seek ch skey)).1.lastError = some "cursor not found" := by
  simp [execCmd, h]

theorem execCmd_next_dead (db : BoltDB) (s : ServerState) (ch n : Nat)
    (h : hLookup s.cursors ch = none) :
    (execCmd db s (Cmd.next ch n)).1.lastError = some "cursor not found" := by
  simp [execCmd, h]

/-! ## Claim theorems -/

/-- Claim C1, counterexample: `CmdNext` belongs to the listed commands, yet
its failing invocation (unknown cursor handle 2) writes zero response
values while the success path with the same count argument (known cursor
handle 1, `n = 1`) writes two, so the failing reply does not have the same
wire shape as the success reply. -/
theorem next_unknown_cursor_breaks_shape_alignment :
    (hLookup s0.cursors 1).isSome = true ∧
    hLookup s0.cursors 2 = none ∧
    (execCmd db0 s0 (Cmd.next 1 1)).2.map WireValue.wtype =
      [WireType.wtBytes, WireType.wtBytes] ∧
    (execCmd db0 s0 (Cmd.next 2 1)).2.map WireValue.wtype = [] := by
  decide

/-- Claim C1, amended: for `Version`, `LastError`, `BeginTx`, `Bucket`,
`Get`, `Cursor` and `Seek` the response written by a failing invocation
has the same wire shape (same value count, same per-value types) as the
success path, in every state; `Next`, however, writes no response values
at all when its cursor handle is unknown. -/
theorem failure_reply_shapes_match_success (db : BoltDB) (s : ServerState) :
    (execCmd db s Cmd.version).2.map WireValue.wtype = [WireType.wtUint] ∧
    (execCmd db s Cmd.lastError).2.map WireValue.wtype = [WireType.wtStr] ∧
    (execCmd db s Cmd.beginTx).2.map WireValue.wtype = [WireType.wtUint] ∧
    (∀ th name, (execCmd db s (Cmd.bucket th name)).2.map WireValue.wtype =
      [WireType.wtUint]) ∧
    (∀ bh key, (execCmd db s (Cmd.get bh key)).2.map WireValue.wtype =
      [WireType.wtBytes]) ∧
    (∀ bh, (execCmd db s (Cmd.cursor bh)).2.map WireValue.wtype = [WireType.wtUint]) ∧
    (∀ ch k, (execCmd db s (Cmd.seek ch k)).2.map WireValue.wtype =
      [WireType.wtBytes, WireType.wtBytes]) ∧
    (∀ ch n, hLookup s.cursors ch = none → (execCmd db s (Cmd.next ch n)).2 = []) := by
  refine ⟨rfl, rfl, ?_, ?_, ?_, ?_, ?_, ?_⟩
  · cases h : db.beginErr <;> simp [execCmd, h, WireValue.wtype]
  · intro th name
    cases ht : hLookup s.transactions th with
    | none => simp [execCmd, ht, WireValue.wtype]
    | some tx => cases hbk : bLookup tx name <;> simp [execCmd, ht, hbk, WireValue.wtype]
  · intro bh key
    cases h : hLookup s.buckets bh <;> simp [execCmd, h, WireValue.wtype]
  · intro bh
    cases h : hLookup s.buckets bh <;> simp [execCmd, h, WireValue.wtype]
  · intro ch k
    cases h : hLookup s.cursors ch <;> simp [execCmd, h, WireValue.wtype]
  · intro ch n hn
    simp [execCmd, hn]

/-- Claim C1, witness: the amended theorem applied at a concrete state
with an unused cursor handle. -/
theorem failure_reply_shapes_match_success_witness :
    hLookup s0.cursors 2 = none ∧ (execCmd db0 s0 (Cmd.next 2 1)).2 = [] :=
  ⟨by decide, (failure_reply_shapes_match_success db0 s0).2.2.2.2.2.2.2 2 1 (by decide)⟩

/-- Claim C2: a decode error of any declared argument is fatal to the
session (the loop returns the error) - except for `CmdNext`'s
`numberOfKeys`, whose decode error is only logged, after which the session
continues with a zero count and even answers the following `CmdVersion`
command; the code is missing the `return err` present at every other
decode site. -/
theorem next_numberOfKeys_decode_error_not_fatal :
    (Server db0 initState [] [Token.tUint 3, Token.tBytes none]).1 =
      ServeOutcome.err "decode uint64 failed" ∧
    (Server db0 initState [] [Token.tUint 4, Token.tUint 1, Token.tUint 7]).1 =
      ServeOutcome.err "decode bytes failed" ∧
    (Server db0 initState [] [Token.tUint 5, Token.tStr "k"]).1 =
      ServeOutcome.err "decode uint64 failed" ∧
    (Server db0 initState [] [Token.tUint 6, Token.tBytes none]).1 =
      ServeOutcome.err "decode uint64 failed" ∧
    (Server db0 initState [] [Token.tUint 7, Token.tUint 1, Token.tUint 2]).1 =
      ServeOutcome.err "decode bytes failed" ∧
    (Server db0 initState [] [Token.tUint 8, Token.tStr "c"]).1 =
      ServeOutcome.err "decode uint64 failed" ∧
    (Server db0 initState []
      [Token.tUint 8, Token.tUint 1, Token.tBytes none, Token.tUint 0]).1 =
      ServeOutcome.ok ∧
    (Server db0 initState []
      [Token.tUint 8, Token.tUint 1, Token.tBytes none, Token.tUint 0]).2.2 =
      [WireValue.uint 1] := by
  decide

/-- Claim C3: after a successful `EndTx(t)`, the transaction, its owned
bucket `b` and that bucket's cursor `c` are all removed, and after any
further command sequence a `Get`/`Cursor` referencing `b` reports
`bucket not found` while a `Seek`/`Next` referencing `c` reports
`cursor not found`. -/
theorem endTx_invalidates_descendant_handles (db : BoltDB) (s : ServerState) (t b c : Nat)
    (ht : (hLookup s.transactions t).isSome = true)
    (hb : b ∈ (hLookup s.bucketsByTx t).getD [])
    (hc : c ∈ (hLookup s.cursorsByBucket b).getD [])
    (hbl : b ≤ s.lastHandle) (hcl : c ≤ s.lastHandle) :
    (execCmd db s (Cmd.endTx t)).1.lastError = none ∧
    hLookup (execCmd db s (Cmd.endTx t)).1.transactions t = none ∧
    hLookup (execCmd db s (Cmd.endTx t)).1.buckets b = none ∧
    hLookup (execCmd db s (Cmd.endTx t)).1.cursors c = none ∧
    ∀ cs : List Cmd, ∀ key : Bytes, ∀ n : Nat,
      (execCmd db (execCmds db (execCmd db s (Cmd.endTx t)).1 cs)
        (Cmd.get b key)).1.lastError = some "bucket not found" ∧
      (execCmd db (execCmds db (execCmd db s (Cmd.endTx t)).1 cs)
        (Cmd.cursor b)).1.lastError = some "bucket not found" ∧
      (execCmd db (execCmds db (execCmd db s (Cmd.endTx t)).1 cs)
        (Cmd.seek c key)).1.lastError = some "cursor not found" ∧
      (execCmd db (execCmds db (execCmd db s (Cmd.endTx t)).1 cs)
        (Cmd.next c n)).1.lastError = some "cursor not found" := by
  obtain ⟨tx, htx⟩ := Option.isSome_iff_exists.mp ht
  have hrm := foldl_dropBucket_removes ((hLookup s.bucketsByTx t).getD []) s b c hb hc
  have hTX : (execCmd db s (Cmd.endTx t)).1.transactions =
      hDelete (((hLookup s.bucketsByTx t).getD []).foldl dropBucket s).transactions t := by
    simp [execCmd, htx]
  have hBK : (execCmd db s (Cmd.endTx t)).1.buckets =
      (((hLookup s.bucketsByTx t).getD []).foldl dropBucket s).buckets := by
    simp [execCmd, htx]
  have hCU : (execCmd db s (Cmd.endTx t)).1.cursors =
      (((hLookup s.bucketsByTx t).getD []).foldl dropBucket s).cursors := by
    simp [execCmd, htx]
  have hLH : (execCmd db s (Cmd.endTx t)).1.lastHandle = s.lastHandle := by
    simp [execCmd, htx, foldl_dropBucket_lastHandle]
  refine ⟨by simp [execCmd, htx], ?_, ?_, ?_, ?_⟩
  · rw [hTX, foldl_dropBucket_transactions, hLookup_hDelete]
    simp
  · rw [hBK]
    exact hrm.1
  · rw [hCU]
    exact hrm.2
  · intro cs key n
    obtain ⟨d1, d2, d3, d4⟩ :=
      execCmds_dead db cs (execCmd db s (Cmd.endTx t)).1 b c
        (by rw [hLH]; exact hbl) (by rw [hBK]; exact hrm.1)
        (by rw [hLH]; exact hcl) (by rw [hCU]; exact hrm.2)
    exact ⟨execCmd_get_dead db _ b key d2, execCmd_cursor_dead db _ b d2,
           execCmd_seek_dead db _ c key d4, execCmd_next_dead db _ c n d4⟩

/-- Claim C3, witness: the cascade theorem applied to the session that
opened transaction 1, bucket 2 and cursor 3, with one intervening
command. -/
theorem endTx_invalidates_descendant_handles_witness :
    (hLookup s3.transactions 1).isSome = true ∧
    (execCmd db0 s3 (Cmd.endTx 1)).1.lastError = none ∧
    (execCmd db0 (execCmds db0 (execCmd db0 s3 (Cmd.endTx 1)).1 [Cmd.beginTx])
      (Cmd.seek 3 [])).1.lastError = some "cursor not found" := by
  have h := endTx_invalidates_descendant_handles db0 s3 1 2 3
    (by decide) (by decide) (by decide) (by decide) (by decide)
  exact ⟨by decide, h.1, (h.2.2.2.2 [Cmd.beginTx] [] 5).2.2.1⟩

/-- Claim C4: over any command sequence from a fresh session, the handles
reported by successful `BeginTx`/`Bucket`/`Cursor` allocations are exactly
the consecutive run `1, 2, 3, …` drawn from the one shared counter: the
list is duplicate-free, strictly increasing, starts at 1, and never
contains 0. -/
theorem session_handles_strictly_increasing_from_one (db : BoltDB) (cmds : List Cmd) :
    successHandles db initState cmds =
      List.range' 1 (successHandles db initState cmds).length ∧
    (successHandles db initState cmds).Nodup ∧
    List.Chain' (fun a b => a < b) (successHandles db initState cmds) ∧
    0 ∉ successHandles db initState cmds := by
  have h : successHandles db initState cmds =
      List.range' 1 (successHandles db initState cmds).length :=
    successHandles_range db cmds initState
  refine ⟨h, ?_, ?_, ?_⟩
  · rw [h]
    exact List.nodup_range' 1 _
  · rw [h]
    exact (List.pairwise_lt_range' 1 _).chain'
  · rw [h]
    intro hm
    have := (List.mem_range'_1.mp hm).1
    omega

/-- Claim C5: `Next` on a known cursor with `n > 0` emits consecutive
pairs; when the bucket holds at least `n` further pairs it emits exactly
`n` real pairs (no nil value anywhere); when the cursor exhausts early it
emits every remaining real pair followed by exactly one nil pair (two nil
values), the terminator being emitted before the loop stops; `lastError`
is set to success. -/
theorem next_emits_pairs_with_nil_terminator (db : BoltDB) (s : ServerState)
    (ch n : Nat) (cur : Cursor) (hc : hLookup s.cursors ch = some cur) (_hn : 0 < n) :
    (execCmd db s (Cmd.next ch n)).1.lastError = none ∧
    (n ≤ cur.remaining.length →
      (execCmd db s (Cmd.next ch n)).2 = pairsOut (cur.remaining.take n) ∧
      (execCmd db s (Cmd.next ch n)).2.length = 2 * n ∧
      List.count (WireValue.bytes none) (execCmd db s (Cmd.next ch n)).2 = 0) ∧
    (cur.remaining.length < n →
      (execCmd db s (Cmd.next ch n)).2 =
        pairsOut cur.remaining ++ [WireValue.bytes none, WireValue.bytes none] ∧
      (execCmd db s (Cmd.next ch n)).2.length = 2 * cur.remaining.length + 2 ∧
      List.count (WireValue.bytes none) (execCmd db s (Cmd.next ch n)).2 = 2) := by
  have hout : (execCmd db s (Cmd.next ch n)).2 = (nextLoop cur n).2 := by
    simp [execCmd, hc]
  refine ⟨by simp [execCmd, hc], ?_, ?_⟩
  · intro hle
    rw [hout, nextLoop_le cur n hle]
    refine ⟨rfl, ?_, pairsOut_count_nil _⟩
    rw [pairsOut_length, List.length_take]
    omega
  · intro hgt
    rw [hout, nextLoop_gt cur n hgt]
    refine ⟨rfl, ?_, ?_⟩
    · rw [List.length_append, pairsOut_length]
      rfl
    · rw [List.count_append, pairsOut_count_nil]
      rfl

/-- Claim C5, witness: the emit theorem applied to the known exhausted
cursor of `s0` with `n = 1`: one nil pair is emitted. -/
theorem next_emits_pairs_with_nil_terminator_witness :
    hLookup s0.cursors 1 = some c0 ∧ 0 < 1 ∧
    (execCmd db0 s0 (Cmd.next 1 1)).1.lastError = none ∧
    (execCmd db0 s0 (Cmd.next 1 1)).2 =
      pairsOut c0.remaining ++ [WireValue.bytes none, WireValue.bytes none] := by
  have h := next_emits_pairs_with_nil_terminator db0 s0 1 1 c0 (by decide) (by decide)
  exact ⟨by decide, by decide, h.1, (h.2.2 (by decide)).1⟩

/-- Claim C6: `Version` and `LastError` leave the `lastError` slot
untouched, while each of `EndTx`, `Bucket`, `Get`, `Cursor`, `Seek` and
`Next` overwrites it: to success (`none`) on the success path and to the
corresponding not-found error on the failure path, independently of its
previous value. -/
theorem lastError_frame_per_command (db : BoltDB) (s : ServerState) :
    (execCmd db s Cmd.version).1.lastError = s.lastError ∧
    (execCmd db s Cmd.lastError).1.lastError = s.lastError ∧
    (∀ th, (execCmd db s (Cmd.endTx th)).1.lastError =
      if (hLookup s.transactions th).isSome then none
      else some "transaction not found") ∧
    (∀ th name, (execCmd db s (Cmd.bucket th name)).1.lastError =
      match hLookup s.transactions th with
      | none => some "transaction not found"
      | some tx =>
        match bLookup tx name with
        | none => some "bucket not found"
        | some _ => none) ∧
    (∀ bh key, (execCmd db s (Cmd.get bh key)).1.lastError =
      if (hLookup s.buckets bh).isSome then none else some "bucket not found") ∧
    (∀ bh, (execCmd db s (Cmd.cursor bh)).1.lastError =
      if (hLookup s.buckets bh).isSome then none else some "bucket not found") ∧
    (∀ ch skey, (execCmd db s (Cmd.seek ch skey)).1.lastError =
      if (hLookup s.cursors ch).isSome then none else some "cursor not found") ∧
    (∀ ch n, (execCmd db s (Cmd.next ch n)).1.lastError =
      if (hLookup s.cursors ch).isSome then none else some "cursor not found") := by
  refine ⟨rfl, rfl, ?_, ?_, ?_, ?_, ?_, ?_⟩
  · intro th
    cases ht : hLookup s.transactions th <;> simp [execCmd, ht]
  · intro th name
    cases ht : hLookup s.transactions th with
    | none => simp [execCmd, ht]
    | some tx => cases hbk : bLookup tx name <;> simp [execCmd, ht, hbk]
  · intro bh key
    cases h : hLookup s.buckets bh <;> simp [execCmd, h]
  · intro bh
    cases h : hLookup s.buckets bh <;> simp [execCmd, h]
  · intro ch skey
    cases h : hLookup s.cursors ch <;> simp [execCmd, h]
  · intro ch n
    cases h : hLookup s.cursors ch <;> simp [execCmd, h]

/-- Claim C7: `View` sends `BeginTx`; on a zero handle it sends
`LastError` and returns the fetched error string without invoking the
closure (the result is the same for every closure); on a nonzero handle it
invokes the closure on the wrapped handle, always sends `EndTx` with the
handle afterwards, and returns the closure's error. -/
theorem view_protocol_behavior :
    (∀ dbc : DB, ∀ e : String, ∀ f : Tx → Option String,
      DB.View dbc 0 e f =
        ([Token.tUint CmdBeginTxTag, Token.tUint CmdLastErrorTag], some e)) ∧
    (∀ dbc : DB, ∀ h : Nat, ∀ e : String, ∀ f : Tx → Option String, h ≠ 0 →
      DB.View dbc h e f =
        ([Token.tUint CmdBeginTxTag, Token.tUint CmdEndTxTag, Token.tUint h],
          f { txHandle := h })) := by
  constructor
  · intro dbc e f
    rfl
  · intro dbc h e f hh
    simp [DB.View, hh]

/-- Claim C7, witness: `View` at handle 0 surfaces the fetched error, and
at handle 5 runs the closure and sends `EndTx`. -/
theorem view_protocol_behavior_witness :
    DB.View DB.mk 0 "boom" (fun _ => none) =
      ([Token.tUint CmdBeginTxTag, Token.tUint CmdLastErrorTag], some "boom") ∧
    DB.View DB.mk 5 "x" (fun _ => some "ferr") =
      ([Token.tUint CmdBeginTxTag, Token.tUint CmdEndTxTag, Token.tUint 5],
        some "ferr") :=
  ⟨view_protocol_behavior.1 DB.mk "boom" (fun _ => none),
   view_protocol_behavior.2 DB.mk 5 "x" (fun _ => some "ferr") (by decide)⟩

/-- Claim C8: `Next` with `n = 0` on a known cursor emits no values,
leaves the cursor at its position, and sets `lastError` to success. -/
theorem next_zero_emits_nothing (db : BoltDB) (s : ServerState) (ch : Nat) (cur : Cursor)
    (hc : hLookup s.cursors ch = some cur) :
    (execCmd db s (Cmd.next ch 0)).2 = [] ∧
    hLookup (execCmd db s (Cmd.next ch 0)).1.cursors ch = some cur ∧
    (execCmd db s (Cmd.next ch 0)).1.lastError = none := by
  refine ⟨by simp [execCmd, hc, nextLoop], ?_, by simp [execCmd, hc]⟩
  simp [execCmd, hc, nextLoop, hInsert, hLookup_cons]

/-- Claim C8, witness: `Next(1, 0)` on the session owning cursor 1. -/
theorem next_zero_emits_nothing_witness :
    hLookup s0.cursors 1 = some c0 ∧
    (execCmd db0 s0 (Cmd.next 1 0)).2 = [] ∧
    hLookup (execCmd db0 s0 (Cmd.next 1 0)).1.cursors 1 = some c0 :=
  ⟨by decide, (next_zero_emits_nothing db0 s0 1 c0 (by decide)).1,
   (next_zero_emits_nothing db0 s0 1 c0 (by decide)).2.1⟩

/-- Claim C9: the interrupt check of the accept loop never exits the loop:
the `break` in the `select` statement terminates only the `select`, so the
loop control after the check is `continueLoop` whether or not a value is
pending on the interrupt channel, and the listener close after the loop is
unreachable. -/
theorem interrupt_does_not_exit_accept_loop :
    listenerInterruptCheck true = LoopCtl.continueLoop ∧
    listenerInterruptCheck false = LoopCtl.continueLoop :=
  ⟨rfl, rfl⟩

/-- Claim C10: the client-side `Tx.Bucket` returns the absent bucket and
writes nothing to the stream, for every transaction wrapper and name. -/
theorem client_bucket_always_absent (tx : Tx) (name : Bytes) :
    Tx.Bucket tx name = (none, []) := rfl

end BoltRemote
